import Mathlib

/-!
Shallow embedding of the work-log session reconstruction of JewelleryFlow,
frontend component WorkLogView (the groupedSessions memo), together with the
helpers it relies on.  Timestamp strings are modelled by the result of their
Date parsing: some t is the epoch-millisecond value, none models an invalid
date (NaN).  The browser timezone used by the local-day filter is abstracted
as an explicit millisecond offset.  Array.prototype.sort is modelled by a
stable insertion sort; for a consistent comparator every stable sort agrees
with it, and a comparator producing NaN is modelled as producing 0, so that
the relative order of the affected elements is kept.
-/

namespace JewelleryFlow

/-- Event type of a daily log record, from the TS string union
    Start | End | StartWork | CompleteWork used by dataService.addDailyLog. -/
inductive LogType where
  | Start
  | End
  | StartWork
  | CompleteWork
deriving DecidableEq

/-- One daily log record, with the fields groupedSessions reads. -/
structure DailyLog where
  id : String
  workerName : String
  type : LogType
  timestamp : Option Int
  photoUrl : String
  relatedLogId : Option String
deriving DecidableEq

/-- Status of a reconstructed work session. -/
inductive SessionStatus where
  | Completed
  | InProgress
  | Abandoned
deriving DecidableEq

/-- View-model record produced by the reconstruction; endTime holds the raw
    timestamp of the closing event (itself possibly invalid) or null. -/
structure WorkSession where
  id : String
  workerName : String
  workerStage : String
  date : Option Int
  startTime : Option Int
  startPhoto : String
  endTime : Option (Option Int)
  endPhoto : Option String
  duration : String
  status : SessionStatus
deriving DecidableEq

/-- User record restricted to the fields the work-log view reads. -/
structure User where
  name : String
  departmentId : Option String
deriving DecidableEq

/-- Department record restricted to the fields the work-log view reads. -/
structure Department where
  id : String
  name : String
deriving DecidableEq

/-- One rendered worker group of sessions. -/
structure WorkerGroup where
  workerName : String
  workerStage : String
  sessions : List WorkSession
deriving DecidableEq

/-- Comparator body new Date(a).getTime() - new Date(b).getTime(); when either
    operand is NaN the subtraction is NaN, which a stable sort treats as 0. -/
def timeCmp : Option Int → Option Int → Int
  | some x, some y => x - y
  | _, _ => 0

/-- date-fns differenceInMinutes: the millisecond difference divided by 60000
    and truncated toward zero; an invalid operand propagates NaN. -/
def diffMinutes : Option Int → Option Int → Option Int
  | some e, some s => some (Int.tdiv (e - s) 60000)
  | _, _ => none

/-- Rendering of the duration template: hours are Math.floor(diff / 60) and
    minutes are the JS remainder diff % 60 (sign of the dividend); a NaN
    difference renders as NaNh NaNm exactly as the template would. -/
def formatHM : Option Int → String
  | none => "NaNh NaNm"
  | some d => toString (Int.fdiv d 60) ++ "h " ++ toString (Int.tmod d 60) ++ "m"

/-- Local calendar day index of a parsed time value, with the timezone
    abstracted as a millisecond offset tz. -/
def dayOf (tz : Int) : Option Int → Option Int
  | none => none
  | some t => some (Int.fdiv (t + tz) 86400000)

/-- date-fns isSameDay; an invalid date lies on no day, so the check is false
    whenever either operand is invalid. -/
def sameDayB (tz : Int) (a b : Option Int) : Bool :=
  match dayOf tz a, dayOf tz b with
  | some x, some y => decide (x = y)
  | _, _ => false

/-- Three-way code-point comparison of char lists; the sign model of
    String.prototype.localeCompare with the locale collation abstracted to
    code-point order. -/
def strCmpCore : List Char → List Char → Int
  | [], [] => 0
  | [], _ :: _ => -1
  | _ :: _, [] => 1
  | a :: as, b :: bs =>
    if a.val.toNat < b.val.toNat then -1
    else if b.val.toNat < a.val.toNat then 1
    else strCmpCore as bs

/-- Comparison of worker names, the model of a.localeCompare(b). -/
def localeCmp (a b : String) : Int := strCmpCore a.data b.data

/-- Stable insertion of x behind every element the comparator does not place
    strictly after x. -/
def insertSorted {α : Type} (cmp : α → α → Int) (x : α) : List α → List α
  | [] => [x]
  | y :: ys => if cmp y x ≤ 0 then y :: insertSorted cmp x ys else x :: y :: ys

/-- Model of Array.prototype.sort with a JS comparator: a stable sort that
    never reorders a pair the comparator does not order strictly. -/
def sortJS {α : Type} (cmp : α → α → Int) (l : List α) : List α :=
  l.foldl (fun acc x => insertSorted cmp x acc) []

/-- Chronological comparator on daily logs. -/
def logCmp (a b : DailyLog) : Int := timeCmp a.timestamp b.timestamp

/-- Newest-first comparator on sessions: timestamp of b minus timestamp of a. -/
def sessCmp (a b : WorkSession) : Int := timeCmp b.startTime a.startTime

/-- Worker-name comparator on groups. -/
def groupCmp (a b : WorkerGroup) : Int := localeCmp a.workerName b.workerName

/-- True exactly for the event types the work-log view keeps. -/
def isWorkLog (l : DailyLog) : Bool :=
  match l.type with
  | LogType.StartWork => true
  | LogType.CompleteWork => true
  | _ => false

/-- Worker stage lookup: users.find by name, then department by id; a missing
    user, a missing or empty department link, a missing department, or an
    empty department name all collapse to Unknown because the source tests
    truthiness at each step. -/
def stageOf (users : List User) (departments : List Department)
    (workerName : String) : String :=
  match users.find? (fun u => decide (u.name = workerName)) with
  | none => "Unknown"
  | some w =>
    match w.departmentId with
    | none => "Unknown"
    | some did =>
      if did = "" then "Unknown"
      else
        match departments.find? (fun d => decide (d.id = did)) with
        | none => "Unknown"
        | some dept => if dept.name = "" then "Unknown" else dept.name

/-- Append a work log to its worker bucket, keeping the first-occurrence
    order of worker keys (JS object key insertion order). -/
def insertLog (acc : List (String × List DailyLog)) (log : DailyLog) :
    List (String × List DailyLog) :=
  match acc with
  | [] => [(log.workerName, [log])]
  | (k, ls) :: rest =>
    if k = log.workerName then (k, ls ++ [log]) :: rest
    else (k, ls) :: insertLog rest log

/-- Grouping of the kept work logs by worker name. -/
def groupByWorker (logs : List DailyLog) : List (String × List DailyLog) :=
  logs.foldl insertLog []

/-- Session pushed by the explicit-link pass for a matched start and complete. -/
def mkLinked (wn stage : String) (startLog comp : DailyLog) : WorkSession :=
  { id := startLog.id
    workerName := wn
    workerStage := stage
    date := startLog.timestamp
    startTime := startLog.timestamp
    startPhoto := startLog.photoUrl
    endTime := some comp.timestamp
    endPhoto := some comp.photoUrl
    duration := formatHM (diffMinutes comp.timestamp startLog.timestamp)
    status := SessionStatus.Completed }

/-- Session pushed when a new start supersedes the open one in the legacy pass. -/
def mkAbandoned (wn stage : String) (cs : DailyLog) : WorkSession :=
  { id := cs.id
    workerName := wn
    workerStage := stage
    date := cs.timestamp
    startTime := cs.timestamp
    startPhoto := cs.photoUrl
    endTime := none
    endPhoto := none
    duration := "Abandoned"
    status := SessionStatus.Abandoned }

/-- Session pushed when a complete closes the open start in the legacy pass. -/
def mkPair (wn stage : String) (cs log : DailyLog) : WorkSession :=
  { id := cs.id
    workerName := wn
    workerStage := stage
    date := cs.timestamp
    startTime := cs.timestamp
    startPhoto := cs.photoUrl
    endTime := some log.timestamp
    endPhoto := some log.photoUrl
    duration := formatHM (diffMinutes log.timestamp cs.timestamp)
    status := SessionStatus.Completed }

/-- Session pushed for a complete that arrives while no start is open. -/
def mkOrphan (wn stage : String) (log : DailyLog) : WorkSession :=
  { id := log.id
    workerName := wn
    workerStage := stage
    date := log.timestamp
    startTime := log.timestamp
    startPhoto := ""
    endTime := some log.timestamp
    endPhoto := some log.photoUrl
    duration := "--"
    status := SessionStatus.Completed }

/-- Session pushed for the start still open when the timeline ends. -/
def mkInProgress (wn stage : String) (cs : DailyLog) : WorkSession :=
  { id := cs.id
    workerName := wn
    workerStage := stage
    date := cs.timestamp
    startTime := cs.timestamp
    startPhoto := cs.photoUrl
    endTime := none
    endPhoto := none
    duration := "In Progress"
    status := SessionStatus.InProgress }

/-- State of the explicit-link pass: the two consumed-id sets and the
    sessions pushed so far. -/
structure P1State where
  consumedS : List String
  consumedC : List String
  sessions : List WorkSession
deriving DecidableEq

/-- One iteration of the explicit-link pass over a complete event: a truthy
    relatedLogId (present and non-empty, since the source tests truthiness)
    that resolves against the full start list pushes the paired session and
    records both ids as consumed. -/
def pass1Step (starts : List DailyLog) (wn stage : String)
    (st : P1State) (comp : DailyLog) : P1State :=
  match comp.relatedLogId with
  | none => st
  | some rid =>
    if rid = "" then st
    else
      match starts.find? (fun s => decide (s.id = rid)) with
      | none => st
      | some startLog =>
        { consumedS := st.consumedS ++ [startLog.id]
          consumedC := st.consumedC ++ [comp.id]
          sessions := st.sessions ++ [mkLinked wn stage startLog comp] }

/-- Explicit-link pass over all completes of one worker. -/
def pass1 (wn stage : String) (starts completes : List DailyLog) : P1State :=
  completes.foldl (pass1Step starts wn stage) ⟨[], [], []⟩

/-- State of the legacy chronological pass: sessions pushed so far and the
    at-most-one open start. -/
structure P2State where
  sessions : List WorkSession
  currentStart : Option DailyLog
deriving DecidableEq

/-- One iteration of the legacy chronological walk. -/
def pass2Step (wn stage : String) (st : P2State) (log : DailyLog) : P2State :=
  match log.type with
  | LogType.StartWork =>
    match st.currentStart with
    | some cs =>
      { sessions := st.sessions ++ [mkAbandoned wn stage cs]
        currentStart := some log }
    | none => { sessions := st.sessions, currentStart := some log }
  | LogType.CompleteWork =>
    match st.currentStart with
    | some cs =>
      { sessions := st.sessions ++ [mkPair wn stage cs log]
        currentStart := none }
    | none =>
      { sessions := st.sessions ++ [mkOrphan wn stage log]
        currentStart := none }
  | _ => st

/-- Legacy chronological pass: merge the unconsumed events into one timeline
    sorted by timestamp, walk it, and emit the start still open at the end as
    In Progress. -/
def legacySessions (wn stage : String) (initSessions : List WorkSession)
    (remaining : List DailyLog) : List WorkSession :=
  let timeline := sortJS logCmp remaining
  let st := timeline.foldl (pass2Step wn stage) ⟨initSessions, none⟩
  match st.currentStart with
  | some cs => st.sessions ++ [mkInProgress wn stage cs]
  | none => st.sessions

/-- Full two-pass reconstruction for one worker whose chronologically sorted
    work logs are wLogs. -/
def workerSessions (wn stage : String) (wLogs : List DailyLog) :
    List WorkSession :=
  let starts := wLogs.filter (fun l => decide (l.type = LogType.StartWork))
  let completes := wLogs.filter (fun l => decide (l.type = LogType.CompleteWork))
  let p1 := pass1 wn stage starts completes
  let remS := starts.filter (fun s => ! decide (s.id ∈ p1.consumedS))
  let remC := completes.filter (fun c => ! decide (c.id ∈ p1.consumedC))
  legacySessions wn stage p1.sessions (remS ++ remC)

/-- Date filter over the reconstructed sessions: filterDate is none for the
    cleared (empty string, falsy) filter and some fd for a chosen date
    parsing to fd. -/
def dateFilter (tz : Int) (filterDate : Option (Option Int))
    (ws : List WorkSession) : List WorkSession :=
  match filterDate with
  | some fd => ws.filter (fun s => sameDayB tz s.startTime fd)
  | none => ws

/-- Per-bucket body of the forEach over worker groups: apply the stage and
    worker filters, reconstruct, apply the date filter, and keep the group
    only when sessions remain; the sessions are then sorted newest first. -/
def buildGroup (tz : Int) (users : List User) (departments : List Department)
    (selectedStage selectedWorker : String) (filterDate : Option (Option Int))
    (wn : String) (bucket : List DailyLog) : Option WorkerGroup :=
  let wLogs := sortJS logCmp bucket
  let stage := stageOf users departments wn
  if selectedStage ≠ "All" ∧ stage ≠ selectedStage then none
  else if selectedWorker ≠ "All" ∧ wn ≠ selectedWorker then none
  else
    let ws := workerSessions wn stage wLogs
    let filtered := dateFilter tz filterDate ws
    if filtered.isEmpty then none
    else some ⟨wn, stage, sortJS sessCmp filtered⟩

/-- The groupedSessions memo of WorkLogView: keep the work events, group them
    by worker, build each worker group, and sort the groups by worker name. -/
def groupedSessions (tz : Int) (dailyLogs : List DailyLog) (users : List User)
    (departments : List Department) (selectedStage selectedWorker : String)
    (filterDate : Option (Option Int)) : List WorkerGroup :=
  let buckets := groupByWorker (dailyLogs.filter isWorkLog)
  let groups := buckets.filterMap
    (fun kv => buildGroup tz users departments selectedStage selectedWorker
      filterDate kv.1 kv.2)
  sortJS groupCmp groups

/-- Millisecond value of a daily log timestamp, defaulting to 0; meaningful
    on logs whose timestamp is parseable. -/
def tval (x : DailyLog) : Int := x.timestamp.getD 0

/-- Millisecond value of a session start time, defaulting to 0; meaningful
    on sessions whose start time is parseable. -/
def startKey (s : WorkSession) : Int := s.startTime.getD 0

/-! Lemmas about the stable sort model. -/

theorem insertSorted_perm {α : Type} (cmp : α → α → Int) (x : α) (l : List α) :
    (insertSorted cmp x l).Perm (x :: l) := by
  induction l with
  | nil => exact List.Perm.refl _
  | cons y ys ih =>
    simp only [insertSorted]
    by_cases h : cmp y x ≤ 0
    · rw [if_pos h]
      exact (ih.cons y).trans (List.Perm.swap x y ys)
    · rw [if_neg h]

theorem foldl_insertSorted_perm {α : Type} (cmp : α → α → Int) :
    ∀ (l acc : List α),
      (l.foldl (fun a x => insertSorted cmp x a) acc).Perm (acc ++ l)
  | [], acc => by simp
  | x :: xs, acc => by
    simp only [List.foldl_cons]
    refine (foldl_insertSorted_perm cmp xs (insertSorted cmp x acc)).trans ?_
    refine ((insertSorted_perm cmp x acc).append_right xs).trans ?_
    exact List.perm_middle.symm

theorem sortJS_perm {α : Type} (cmp : α → α → Int) (l : List α) :
    (sortJS cmp l).Perm l := by
  simpa [sortJS] using foldl_insertSorted_perm cmp l []

theorem sortJS_mem {α : Type} (cmp : α → α → Int) (l : List α) (x : α) :
    x ∈ sortJS cmp l ↔ x ∈ l :=
  (sortJS_perm cmp l).mem_iff

theorem insertSorted_pairwise {α : Type} (cmp : α → α → Int)
    (htot : ∀ a b, cmp a b ≤ 0 ∨ cmp b a ≤ 0)
    (htrans : ∀ a b c, cmp a b ≤ 0 → cmp b c ≤ 0 → cmp a c ≤ 0)
    (x : α) :
    ∀ (l : List α), l.Pairwise (fun a b => cmp a b ≤ 0) →
      (insertSorted cmp x l).Pairwise (fun a b => cmp a b ≤ 0)
  | [], _ => by simp [insertSorted]
  | y :: ys, hl => by
    rw [List.pairwise_cons] at hl
    obtain ⟨h1, h2⟩ := hl
    simp only [insertSorted]
    by_cases h : cmp y x ≤ 0
    · rw [if_pos h]
      rw [List.pairwise_cons]
      refine ⟨?_, insertSorted_pairwise cmp htot htrans x ys h2⟩
      intro z hz
      rcases List.mem_cons.1 (((insertSorted_perm cmp x ys).mem_iff).1 hz)
        with hzx | hzy
      · exact hzx ▸ h
      · exact h1 z hzy
    · rw [if_neg h]
      rw [List.pairwise_cons]
      have hxy : cmp x y ≤ 0 := (htot x y).resolve_right h
      refine ⟨?_, List.Pairwise.cons h1 h2⟩
      intro z hz
      rcases List.mem_cons.1 hz with hzy | hzys
      · exact hzy ▸ hxy
      · exact htrans x y z hxy (h1 z hzys)

theorem foldl_insertSorted_pairwise {α : Type} (cmp : α → α → Int)
    (htot : ∀ a b, cmp a b ≤ 0 ∨ cmp b a ≤ 0)
    (htrans : ∀ a b c, cmp a b ≤ 0 → cmp b c ≤ 0 → cmp a c ≤ 0) :
    ∀ (l acc : List α), acc.Pairwise (fun a b => cmp a b ≤ 0) →
      (l.foldl (fun a x => insertSorted cmp x a) acc).Pairwise
        (fun a b => cmp a b ≤ 0)
  | [], _, h => h
  | x :: xs, acc, h =>
    foldl_insertSorted_pairwise cmp htot htrans xs (insertSorted cmp x acc)
      (insertSorted_pairwise cmp htot htrans x acc h)

theorem sortJS_pairwise {α : Type} (cmp : α → α → Int)
    (htot : ∀ a b, cmp a b ≤ 0 ∨ cmp b a ≤ 0)
    (htrans : ∀ a b c, cmp a b ≤ 0 → cmp b c ≤ 0 → cmp a c ≤ 0)
    (l : List α) :
    (sortJS cmp l).Pairwise (fun a b => cmp a b ≤ 0) :=
  foldl_insertSorted_pairwise cmp htot htrans l [] (by simp)

theorem insertSorted_congr {α : Type} (cmp₁ cmp₂ : α → α → Int) (x : α) :
    ∀ (l : List α), (∀ y ∈ l, cmp₁ y x = cmp₂ y x) →
      insertSorted cmp₁ x l = insertSorted cmp₂ x l
  | [], _ => rfl
  | y :: ys, h => by
    have hy : cmp₁ y x = cmp₂ y x := h y (by simp)
    have hrec : insertSorted cmp₁ x ys = insertSorted cmp₂ x ys :=
      insertSorted_congr cmp₁ cmp₂ x ys (fun z hz => h z (by simp [hz]))
    simp only [insertSorted, hy, hrec]

theorem foldl_insertSorted_congr {α : Type} (cmp₁ cmp₂ : α → α → Int) :
    ∀ (l acc : List α),
      (∀ x ∈ l, ∀ y, y ∈ acc ∨ y ∈ l → cmp₁ y x = cmp₂ y x) →
      l.foldl (fun a x => insertSorted cmp₁ x a) acc
        = l.foldl (fun a x => insertSorted cmp₂ x a) acc
  | [], _, _ => rfl
  | x :: xs, acc, h => by
    have hx : insertSorted cmp₁ x acc = insertSorted cmp₂ x acc :=
      insertSorted_congr cmp₁ cmp₂ x acc
        (fun y hy => h x (by simp) y (Or.inl hy))
    simp only [List.foldl_cons, hx]
    apply foldl_insertSorted_congr
    intro x2 hx2 y hy
    refine h x2 (by simp [hx2]) y ?_
    rcases hy with hy | hy
    · rcases List.mem_cons.1 (((insertSorted_perm cmp₂ x acc).mem_iff).1 hy)
        with h1 | h1
      · exact Or.inr (by simp [h1])
      · exact Or.inl h1
    · exact Or.inr (by simp [hy])

theorem sortJS_congr {α : Type} (cmp₁ cmp₂ : α → α → Int) (l : List α)
    (h : ∀ a ∈ l, ∀ b ∈ l, cmp₁ a b = cmp₂ a b) :
    sortJS cmp₁ l = sortJS cmp₂ l := by
  unfold sortJS
  apply foldl_insertSorted_congr
  intro x hx y hy
  rcases hy with hy | hy
  · exact absurd hy (List.not_mem_nil y)
  · exact h y hy x hx

theorem sortJS_pairwise_key {α : Type} (key : α → Int) (l : List α) :
    (sortJS (fun a b => key a - key b) l).Pairwise
      (fun a b => key a ≤ key b) := by
  have h := sortJS_pairwise (fun a b => key a - key b)
    (fun a b => by
      show key a - key b ≤ 0 ∨ key b - key a ≤ 0
      omega)
    (fun a b c h1 h2 => by
      have g1 : key a - key b ≤ 0 := h1
      have g2 : key b - key c ≤ 0 := h2
      show key a - key c ≤ 0
      omega) l
  refine h.imp ?_
  intro a b hab
  have g : key a - key b ≤ 0 := hab
  omega

/-! Lemmas about the string comparison order. -/

theorem strCmpCore_swap : ∀ (as bs : List Char),
    strCmpCore bs as = - strCmpCore as bs
  | [], [] => rfl
  | [], _ :: _ => rfl
  | _ :: _, [] => rfl
  | a :: as, b :: bs => by
    simp only [strCmpCore]
    split_ifs <;> first | omega | exact strCmpCore_swap as bs

theorem strCmpCore_le_trans : ∀ (as bs cs : List Char),
    strCmpCore as bs ≤ 0 → strCmpCore bs cs ≤ 0 → strCmpCore as cs ≤ 0
  | [], bs, cs => by
    intro _ _
    cases cs <;> simp [strCmpCore]
  | _ :: _, [], _ => by
    intro h _
    simp [strCmpCore] at h
  | _ :: _, _ :: _, [] => by
    intro _ h
    simp [strCmpCore] at h
  | a :: as, b :: bs, c :: cs => by
    intro h1 h2
    simp only [strCmpCore] at h1 h2 ⊢
    split_ifs at h1 h2 ⊢ <;>
      first | omega | exact strCmpCore_le_trans as bs cs h1 h2

theorem localeCmp_total (a b : String) :
    localeCmp a b ≤ 0 ∨ localeCmp b a ≤ 0 := by
  unfold localeCmp
  rw [strCmpCore_swap a.data b.data]
  omega

theorem localeCmp_le_trans (a b c : String) :
    localeCmp a b ≤ 0 → localeCmp b c ≤ 0 → localeCmp a c ≤ 0 :=
  strCmpCore_le_trans a.data b.data c.data

/-! Sortedness of the three concrete sorts. -/

theorem sortJS_groupCmp_sorted (l : List WorkerGroup) :
    (sortJS groupCmp l).Pairwise
      (fun a b => localeCmp a.workerName b.workerName ≤ 0) :=
  sortJS_pairwise groupCmp
    (fun a b => localeCmp_total a.workerName b.workerName)
    (fun a b c => localeCmp_le_trans a.workerName b.workerName c.workerName) l

theorem sortJS_logCmp_sorted (l : List DailyLog)
    (h : ∀ x ∈ l, ∃ t, x.timestamp = some t) :
    (sortJS logCmp l).Pairwise (fun a b => tval a ≤ tval b) := by
  have hcongr : sortJS logCmp l = sortJS (fun a b => tval a - tval b) l := by
    apply sortJS_congr
    intro a ha b hb
    obtain ⟨ta, hta⟩ := h a ha
    obtain ⟨tb, htb⟩ := h b hb
    simp [logCmp, timeCmp, tval, hta, htb]
  rw [hcongr]
  exact sortJS_pairwise_key tval l

theorem sortJS_sessCmp_sorted (l : List WorkSession)
    (h : ∀ s ∈ l, ∃ t, s.startTime = some t) :
    (sortJS sessCmp l).Pairwise (fun a b => startKey b ≤ startKey a) := by
  have hcongr : sortJS sessCmp l
      = sortJS (fun a b => (- startKey a) - (- startKey b)) l := by
    apply sortJS_congr
    intro a ha b hb
    obtain ⟨ta, hta⟩ := h a ha
    obtain ⟨tb, htb⟩ := h b hb
    simp only [sessCmp, timeCmp, startKey, hta, htb, Option.getD_some]
    omega
  rw [hcongr]
  have hp := sortJS_pairwise_key (fun s => - startKey s) l
  refine hp.imp ?_
  intro a b hab
  have g : - startKey a ≤ - startKey b := hab
  omega

/-! Step equations for the explicit-link pass. -/

theorem pass1Step_skip (starts : List DailyLog) (wn stage : String)
    (st : P1State) (comp : DailyLog)
    (h : comp.relatedLogId = none) :
    pass1Step starts wn stage st comp = st := by
  unfold pass1Step
  simp only [h]

theorem pass1Step_falsy (starts : List DailyLog) (wn stage : String)
    (st : P1State) (comp : DailyLog)
    (h : comp.relatedLogId = some "") :
    pass1Step starts wn stage st comp = st := by
  unfold pass1Step
  simp [h]

theorem pass1Step_nofind (starts : List DailyLog) (wn stage : String)
    (st : P1State) (comp : DailyLog) (rid : String)
    (h1 : comp.relatedLogId = some rid) (hne : rid ≠ "")
    (h2 : starts.find? (fun s => decide (s.id = rid)) = none) :
    pass1Step starts wn stage st comp = st := by
  unfold pass1Step
  simp only [h1, if_neg hne, h2]

theorem pass1Step_found (starts : List DailyLog) (wn stage : String)
    (st : P1State) (comp startLog : DailyLog) (rid : String)
    (h1 : comp.relatedLogId = some rid) (hne : rid ≠ "")
    (h2 : starts.find? (fun s => decide (s.id = rid)) = some startLog) :
    pass1Step starts wn stage st comp =
      ⟨st.consumedS ++ [startLog.id], st.consumedC ++ [comp.id],
        st.sessions ++ [mkLinked wn stage startLog comp]⟩ := by
  unfold pass1Step
  simp only [h1, if_neg hne, h2]

/-- Case split form of one explicit-link step: either the state is unchanged
    or all three components are extended by the matched pair. -/
theorem pass1Step_cases (starts : List DailyLog) (wn stage : String)
    (st : P1State) (comp : DailyLog) :
    pass1Step starts wn stage st comp = st
    ∨ ∃ startLog rid, comp.relatedLogId = some rid ∧ rid ≠ ""
        ∧ starts.find? (fun s => decide (s.id = rid)) = some startLog
        ∧ pass1Step starts wn stage st comp =
          ⟨st.consumedS ++ [startLog.id], st.consumedC ++ [comp.id],
            st.sessions ++ [mkLinked wn stage startLog comp]⟩ := by
  cases h1 : comp.relatedLogId with
  | none => exact Or.inl (pass1Step_skip starts wn stage st comp h1)
  | some rid =>
    by_cases hne : rid = ""
    · subst hne
      exact Or.inl (pass1Step_falsy starts wn stage st comp h1)
    · cases h2 : starts.find? (fun s => decide (s.id = rid)) with
      | none =>
        exact Or.inl (pass1Step_nofind starts wn stage st comp rid h1 hne h2)
      | some startLog =>
        exact Or.inr ⟨startLog, rid, rfl, hne, h2,
          pass1Step_found starts wn stage st comp startLog rid h1 hne h2⟩

theorem pass1_foldl_mono (starts : List DailyLog) (wn stage : String) :
    ∀ (l : List DailyLog) (st : P1State),
      st.consumedS ⊆ (l.foldl (pass1Step starts wn stage) st).consumedS
      ∧ st.consumedC ⊆ (l.foldl (pass1Step starts wn stage) st).consumedC
      ∧ st.sessions ⊆ (l.foldl (pass1Step starts wn stage) st).sessions
  | [], st => ⟨List.Subset.refl _, List.Subset.refl _, List.Subset.refl _⟩
  | x :: xs, st => by
    simp only [List.foldl_cons]
    have ih := pass1_foldl_mono starts wn stage xs (pass1Step starts wn stage st x)
    have hstep : st.consumedS ⊆ (pass1Step starts wn stage st x).consumedS
        ∧ st.consumedC ⊆ (pass1Step starts wn stage st x).consumedC
        ∧ st.sessions ⊆ (pass1Step starts wn stage st x).sessions := by
      rcases pass1Step_cases starts wn stage st x
        with heq | ⟨sl, rid, _, _, _, heq⟩
      · rw [heq]
        exact ⟨List.Subset.refl _, List.Subset.refl _, List.Subset.refl _⟩
      · rw [heq]
        exact ⟨List.subset_append_left _ _, List.subset_append_left _ _,
          List.subset_append_left _ _⟩
    exact ⟨hstep.1.trans ih.1, hstep.2.1.trans ih.2.1, hstep.2.2.trans ih.2.2⟩

theorem pass1_foldl_emits (starts : List DailyLog) (wn stage : String) :
    ∀ (l : List DailyLog) (st : P1State) (comp startLog : DailyLog)
      (rid : String), comp ∈ l → comp.relatedLogId = some rid → rid ≠ "" →
      starts.find? (fun s => decide (s.id = rid)) = some startLog →
      startLog.id ∈ (l.foldl (pass1Step starts wn stage) st).consumedS
      ∧ comp.id ∈ (l.foldl (pass1Step starts wn stage) st).consumedC
      ∧ mkLinked wn stage startLog comp
          ∈ (l.foldl (pass1Step starts wn stage) st).sessions
  | [], _, _, _, _, hmem, _, _, _ => absurd hmem (List.not_mem_nil _)
  | x :: xs, st, comp, startLog, rid, hmem, hrel, hne, hfind => by
    rcases List.mem_cons.1 hmem with heq | htail
    · subst heq
      simp only [List.foldl_cons]
      have hstep : startLog.id ∈ (pass1Step starts wn stage st comp).consumedS
          ∧ comp.id ∈ (pass1Step starts wn stage st comp).consumedC
          ∧ mkLinked wn stage startLog comp
              ∈ (pass1Step starts wn stage st comp).sessions := by
        rw [pass1Step_found starts wn stage st comp startLog rid hrel hne hfind]
        refine ⟨?_, ?_, ?_⟩ <;> simp
      have hmono := pass1_foldl_mono starts wn stage xs
        (pass1Step starts wn stage st comp)
      exact ⟨hmono.1 hstep.1, hmono.2.1 hstep.2.1, hmono.2.2 hstep.2.2⟩
    · exact pass1_foldl_emits starts wn stage xs
        (pass1Step starts wn stage st x) comp startLog rid htail hrel hne hfind

theorem pass1_foldl_completed (starts : List DailyLog) (wn stage : String) :
    ∀ (l : List DailyLog) (st : P1State),
      (∀ s ∈ st.sessions, s.status = SessionStatus.Completed) →
      ∀ s ∈ (l.foldl (pass1Step starts wn stage) st).sessions,
        s.status = SessionStatus.Completed
  | [], _, h => h
  | x :: xs, st, h => by
    simp only [List.foldl_cons]
    refine pass1_foldl_completed starts wn stage xs _ ?_
    intro s hs
    rcases pass1Step_cases starts wn stage st x
      with heq | ⟨sl, rid, _, _, _, heq⟩
    · rw [heq] at hs
      exact h s hs
    · rw [heq] at hs
      rcases List.mem_append.1 hs with hs | hs
      · exact h s hs
      · rcases List.mem_singleton.1 hs with rfl
        rfl

/-! Step equations for the legacy chronological pass. -/

theorem pass2Step_other (wn stage : String) (st : P2State) (log : DailyLog)
    (h : log.type = LogType.Start ∨ log.type = LogType.End) :
    pass2Step wn stage st log = st := by
  unfold pass2Step
  rcases h with h | h <;> simp only [h]

theorem pass2Step_start_open (wn stage : String) (st : P2State)
    (log cs : DailyLog) (htype : log.type = LogType.StartWork)
    (hcur : st.currentStart = some cs) :
    pass2Step wn stage st log =
      ⟨st.sessions ++ [mkAbandoned wn stage cs], some log⟩ := by
  unfold pass2Step
  simp only [htype, hcur]

theorem pass2Step_start_fresh (wn stage : String) (st : P2State)
    (log : DailyLog) (htype : log.type = LogType.StartWork)
    (hcur : st.currentStart = none) :
    pass2Step wn stage st log = ⟨st.sessions, some log⟩ := by
  unfold pass2Step
  simp only [htype, hcur]

theorem pass2Step_complete_open (wn stage : String) (st : P2State)
    (log cs : DailyLog) (htype : log.type = LogType.CompleteWork)
    (hcur : st.currentStart = some cs) :
    pass2Step wn stage st log =
      ⟨st.sessions ++ [mkPair wn stage cs log], none⟩ := by
  unfold pass2Step
  simp only [htype, hcur]

theorem pass2Step_complete_orphan (wn stage : String) (st : P2State)
    (log : DailyLog) (htype : log.type = LogType.CompleteWork)
    (hcur : st.currentStart = none) :
    pass2Step wn stage st log =
      ⟨st.sessions ++ [mkOrphan wn stage log], none⟩ := by
  unfold pass2Step
  simp only [htype, hcur]

/-- Exhaustive case split of one legacy step. -/
theorem pass2Step_cases (wn stage : String) (st : P2State) (log : DailyLog) :
    pass2Step wn stage st log = st
    ∨ (∃ cs, st.currentStart = some cs ∧ log.type = LogType.StartWork
        ∧ pass2Step wn stage st log =
          ⟨st.sessions ++ [mkAbandoned wn stage cs], some log⟩)
    ∨ (st.currentStart = none ∧ log.type = LogType.StartWork
        ∧ pass2Step wn stage st log = ⟨st.sessions, some log⟩)
    ∨ (∃ cs, st.currentStart = some cs ∧ log.type = LogType.CompleteWork
        ∧ pass2Step wn stage st log =
          ⟨st.sessions ++ [mkPair wn stage cs log], none⟩)
    ∨ (st.currentStart = none ∧ log.type = LogType.CompleteWork
        ∧ pass2Step wn stage st log =
          ⟨st.sessions ++ [mkOrphan wn stage log], none⟩) := by
  cases htype : log.type with
  | Start => exact Or.inl (pass2Step_other wn stage st log (Or.inl htype))
  | End => exact Or.inl (pass2Step_other wn stage st log (Or.inr htype))
  | StartWork =>
    cases hcur : st.currentStart with
    | none =>
      exact Or.inr (Or.inr (Or.inl ⟨rfl, rfl,
        pass2Step_start_fresh wn stage st log htype hcur⟩))
    | some cs =>
      exact Or.inr (Or.inl ⟨cs, rfl, rfl,
        pass2Step_start_open wn stage st log cs htype hcur⟩)
  | CompleteWork =>
    cases hcur : st.currentStart with
    | none =>
      exact Or.inr (Or.inr (Or.inr (Or.inr ⟨rfl, rfl,
        pass2Step_complete_orphan wn stage st log htype hcur⟩)))
    | some cs =>
      exact Or.inr (Or.inr (Or.inr (Or.inl ⟨cs, rfl, rfl,
        pass2Step_complete_open wn stage st log cs htype hcur⟩)))

theorem pass2Step_no_inprogress (wn stage : String) (st : P2State)
    (log : DailyLog)
    (h : ∀ s ∈ st.sessions, s.status ≠ SessionStatus.InProgress) :
    ∀ s ∈ (pass2Step wn stage st log).sessions,
      s.status ≠ SessionStatus.InProgress := by
  intro s hs
  rcases pass2Step_cases wn stage st log with heq | ⟨cs, _, _, heq⟩
    | ⟨_, _, heq⟩ | ⟨cs, _, _, heq⟩ | ⟨_, _, heq⟩ <;> rw [heq] at hs
  · exact h s hs
  · rcases List.mem_append.1 hs with hs | hs
    · exact h s hs
    · rcases List.mem_singleton.1 hs with rfl
      simp [mkAbandoned]
  · exact h s hs
  · rcases List.mem_append.1 hs with hs | hs
    · exact h s hs
    · rcases List.mem_singleton.1 hs with rfl
      simp [mkPair]
  · rcases List.mem_append.1 hs with hs | hs
    · exact h s hs
    · rcases List.mem_singleton.1 hs with rfl
      simp [mkOrphan]

theorem pass2_foldl_no_inprogress (wn stage : String) :
    ∀ (l : List DailyLog) (st : P2State),
      (∀ s ∈ st.sessions, s.status ≠ SessionStatus.InProgress) →
      ∀ s ∈ (l.foldl (pass2Step wn stage) st).sessions,
        s.status ≠ SessionStatus.InProgress
  | [], _, h => h
  | x :: xs, st, h =>
    pass2_foldl_no_inprogress wn stage xs (pass2Step wn stage st x)
      (pass2Step_no_inprogress wn stage st x h)

/-- Ordering property a reconstructed session is expected to satisfy: a
    Completed session carries both timestamps, the end one at least the
    start one. -/
def sessOrdered (s : WorkSession) : Prop :=
  s.status = SessionStatus.Completed →
    ∃ ts te, s.startTime = some ts ∧ s.endTime = some (some te) ∧ ts ≤ te

theorem pass2_foldl_ordered (wn stage : String) :
    ∀ (l : List DailyLog) (st : P2State),
      l.Pairwise (fun a b => tval a ≤ tval b) →
      (∀ x ∈ l, ∃ t, x.timestamp = some t) →
      (∀ s ∈ st.sessions, sessOrdered s) →
      (∀ cs, st.currentStart = some cs →
        (∃ t, cs.timestamp = some t) ∧ ∀ x ∈ l, tval cs ≤ tval x) →
      ∀ s ∈ (l.foldl (pass2Step wn stage) st).sessions, sessOrdered s
  | [], _, _, _, hsess, _ => hsess
  | x :: xs, st, hpw, hall, hsess, hcur => by
    rw [List.pairwise_cons] at hpw
    obtain ⟨hhead, htail⟩ := hpw
    have hallx := hall x (by simp)
    have halltail : ∀ z ∈ xs, ∃ t, z.timestamp = some t :=
      fun z hz => hall z (by simp [hz])
    simp only [List.foldl_cons]
    have hxle : ∀ z ∈ x :: xs, tval x ≤ tval z := by
      intro z hz
      rcases List.mem_cons.1 hz with rfl | hz
      · exact le_refl _
      · exact hhead z hz
    refine pass2_foldl_ordered wn stage xs (pass2Step wn stage st x)
      htail halltail ?_ ?_
    · intro s hs
      rcases pass2Step_cases wn stage st x with heq | ⟨cs, _, _, heq⟩
        | ⟨_, _, heq⟩ | ⟨cs, hcso, _, heq⟩ | ⟨_, _, heq⟩ <;> rw [heq] at hs
      · exact hsess s hs
      · rcases List.mem_append.1 hs with hs | hs
        · exact hsess s hs
        · rcases List.mem_singleton.1 hs with rfl
          intro habs
          simp [mkAbandoned] at habs
      · exact hsess s hs
      · rcases List.mem_append.1 hs with hs | hs
        · exact hsess s hs
        · rcases List.mem_singleton.1 hs with rfl
          intro _
          obtain ⟨hts, hle⟩ := hcur cs hcso
          obtain ⟨ts, hts⟩ := hts
          obtain ⟨te, hte⟩ := hallx
          refine ⟨ts, te, by simp [mkPair, hts], by simp [mkPair, hte], ?_⟩
          have hl := hle x (by simp)
          rwa [tval, tval, hts, hte, Option.getD_some, Option.getD_some] at hl
      · rcases List.mem_append.1 hs with hs | hs
        · exact hsess s hs
        · rcases List.mem_singleton.1 hs with rfl
          intro _
          obtain ⟨t, ht⟩ := hallx
          exact ⟨t, t, by simp [mkOrphan, ht], by simp [mkOrphan, ht], le_refl t⟩
    · intro cs hcs2
      rcases pass2Step_cases wn stage st x with heq | ⟨c2, _, _, heq⟩
        | ⟨_, _, heq⟩ | ⟨c2, _, _, heq⟩ | ⟨_, _, heq⟩ <;> rw [heq] at hcs2
      · have hc := hcur cs hcs2
        exact ⟨hc.1, fun z hz => hc.2 z (by simp [hz])⟩
      · have hx : x = cs := by
          simpa using hcs2
        subst hx
        exact ⟨hallx, fun z hz => hhead z hz⟩
      · have hx : x = cs := by
          simpa using hcs2
        subst hx
        exact ⟨hallx, fun z hz => hhead z hz⟩
      · exact absurd hcs2 (by simp)
      · exact absurd hcs2 (by simp)

/-! Equations and consequences for the full legacy pass and the grouping. -/

theorem legacySessions_match (wn stage : String) (init : List WorkSession)
    (l : List DailyLog) :
    legacySessions wn stage init l =
      match ((sortJS logCmp l).foldl (pass2Step wn stage)
          ⟨init, none⟩).currentStart with
      | some cs => ((sortJS logCmp l).foldl (pass2Step wn stage)
          ⟨init, none⟩).sessions ++ [mkInProgress wn stage cs]
      | none => ((sortJS logCmp l).foldl (pass2Step wn stage)
          ⟨init, none⟩).sessions := rfl

theorem legacySessions_open (wn stage : String) (init : List WorkSession)
    (l : List DailyLog) (cs : DailyLog)
    (h : ((sortJS logCmp l).foldl (pass2Step wn stage)
        ⟨init, none⟩).currentStart = some cs) :
    legacySessions wn stage init l =
      ((sortJS logCmp l).foldl (pass2Step wn stage) ⟨init, none⟩).sessions
        ++ [mkInProgress wn stage cs] := by
  rw [legacySessions_match, h]

theorem legacySessions_closed (wn stage : String) (init : List WorkSession)
    (l : List DailyLog)
    (h : ((sortJS logCmp l).foldl (pass2Step wn stage)
        ⟨init, none⟩).currentStart = none) :
    legacySessions wn stage init l =
      ((sortJS logCmp l).foldl (pass2Step wn stage) ⟨init, none⟩).sessions := by
  rw [legacySessions_match, h]

theorem legacySessions_countP (wn stage : String) (init : List WorkSession)
    (l : List DailyLog)
    (hinit : ∀ s ∈ init, s.status ≠ SessionStatus.InProgress) :
    (legacySessions wn stage init l).countP
      (fun s => decide (s.status = SessionStatus.InProgress)) ≤ 1 := by
  have hfold := pass2_foldl_no_inprogress wn stage (sortJS logCmp l)
    ⟨init, none⟩ hinit
  have hzero : ((sortJS logCmp l).foldl (pass2Step wn stage)
      ⟨init, none⟩).sessions.countP
      (fun s => decide (s.status = SessionStatus.InProgress)) = 0 := by
    rw [List.countP_eq_zero]
    intro s hs
    simpa using hfold s hs
  cases hcs : ((sortJS logCmp l).foldl (pass2Step wn stage)
      ⟨init, none⟩).currentStart with
  | none =>
    rw [legacySessions_closed wn stage init l hcs, hzero]
    exact Nat.zero_le 1
  | some cs =>
    rw [legacySessions_open wn stage init l cs hcs, List.countP_append, hzero]
    simp [mkInProgress]

/-- Ordering of every Completed session of the legacy pass run on its own:
    when every remaining event has a parseable timestamp, a Completed session
    carries both timestamps and the end is not before the start. -/
theorem legacySessions_ordered (wn stage : String) (l : List DailyLog)
    (hall : ∀ x ∈ l, ∃ t, x.timestamp = some t) :
    ∀ s ∈ legacySessions wn stage [] l, sessOrdered s := by
  intro s hs
  have hps := sortJS_logCmp_sorted l hall
  have hmem : ∀ x ∈ sortJS logCmp l, ∃ t, x.timestamp = some t :=
    fun x hx => hall x ((sortJS_mem logCmp l x).1 hx)
  have hfold := pass2_foldl_ordered wn stage (sortJS logCmp l) ⟨[], none⟩
    hps hmem (by simp) (by simp)
  cases hcs : ((sortJS logCmp l).foldl (pass2Step wn stage)
      ⟨[], none⟩).currentStart with
  | none =>
    rw [legacySessions_closed wn stage [] l hcs] at hs
    exact hfold s hs
  | some cs =>
    rw [legacySessions_open wn stage [] l cs hcs] at hs
    rcases List.mem_append.1 hs with hs | hs
    · exact hfold s hs
    · rcases List.mem_singleton.1 hs with rfl
      intro habs
      simp [mkInProgress] at habs

theorem workerSessions_eq (wn stage : String) (wLogs : List DailyLog) :
    workerSessions wn stage wLogs =
      legacySessions wn stage
        (pass1 wn stage
          (wLogs.filter (fun l => decide (l.type = LogType.StartWork)))
          (wLogs.filter (fun l => decide (l.type = LogType.CompleteWork)))).sessions
        ((wLogs.filter (fun l => decide (l.type = LogType.StartWork))).filter
            (fun s => ! decide (s.id ∈ (pass1 wn stage
              (wLogs.filter (fun l => decide (l.type = LogType.StartWork)))
              (wLogs.filter (fun l => decide
                (l.type = LogType.CompleteWork)))).consumedS))
          ++ (wLogs.filter (fun l => decide
              (l.type = LogType.CompleteWork))).filter
            (fun c => ! decide (c.id ∈ (pass1 wn stage
              (wLogs.filter (fun l => decide (l.type = LogType.StartWork)))
              (wLogs.filter (fun l => decide
                (l.type = LogType.CompleteWork)))).consumedC))) := rfl

theorem workerSessions_countP (wn stage : String) (wLogs : List DailyLog) :
    (workerSessions wn stage wLogs).countP
      (fun s => decide (s.status = SessionStatus.InProgress)) ≤ 1 := by
  rw [workerSessions_eq]
  apply legacySessions_countP
  intro s hs
  have hc := pass1_foldl_completed
    (wLogs.filter (fun l => decide (l.type = LogType.StartWork))) wn stage
    (wLogs.filter (fun l => decide (l.type = LogType.CompleteWork)))
    ⟨[], [], []⟩ (by simp) s hs
  rw [hc]
  simp

theorem sameDayB_isSome (tz : Int) (a b : Option Int)
    (h : sameDayB tz a b = true) : ∃ t, a = some t := by
  cases a with
  | none =>
    exfalso
    cases b <;> simp [sameDayB, dayOf] at h
  | some t => exact ⟨t, rfl⟩

theorem dateFilter_sublist (tz : Int) (fd : Option (Option Int))
    (ws : List WorkSession) : (dateFilter tz fd ws).Sublist ws := by
  cases fd with
  | none => exact List.Sublist.refl ws
  | some d => exact List.filter_sublist ws

theorem mem_dateFilter_same_day (tz : Int) (fd : Option Int)
    (ws : List WorkSession) (s : WorkSession)
    (h : s ∈ dateFilter tz (some fd) ws) :
    sameDayB tz s.startTime fd = true := by
  have hm : s ∈ ws.filter (fun x => sameDayB tz x.startTime fd) := h
  simpa using (List.mem_filter.1 hm).2

theorem buildGroup_sessions (tz : Int) (users : List User)
    (departments : List Department) (ss sw : String)
    (fd : Option (Option Int)) (wn : String) (bucket : List DailyLog)
    (g : WorkerGroup)
    (h : buildGroup tz users departments ss sw fd wn bucket = some g) :
    g.sessions = sortJS sessCmp (dateFilter tz fd
      (workerSessions wn (stageOf users departments wn)
        (sortJS logCmp bucket))) := by
  simp only [buildGroup] at h
  split_ifs at h
  all_goals
    first
    | exact Option.noConfusion h
    | (rcases Option.some.inj h with rfl; rfl)

theorem mem_groupedSessions (tz : Int) (dailyLogs : List DailyLog)
    (users : List User) (departments : List Department) (ss sw : String)
    (fd : Option (Option Int)) (g : WorkerGroup)
    (h : g ∈ groupedSessions tz dailyLogs users departments ss sw fd) :
    ∃ wn bucket,
      (wn, bucket) ∈ groupByWorker (dailyLogs.filter isWorkLog)
      ∧ buildGroup tz users departments ss sw fd wn bucket = some g := by
  simp only [groupedSessions] at h
  have h2 := (sortJS_mem groupCmp _ g).1 h
  rcases List.mem_filterMap.1 h2 with ⟨kv, hkv, hbg⟩
  exact ⟨kv.1, kv.2, hkv, hbg⟩

/-! Claim theorems. -/

/-- C1, counterexample: a CompleteWork event whose relatedLogId points at a
    StartWork event with a later timestamp is still emitted as a Completed
    session by the explicit-link pass, with its end time (0) strictly before
    its start time (1800000), refuting that every Completed session satisfies
    end.timestamp at least start.timestamp. -/
theorem c1_counterexample :
    groupedSessions 0
      [⟨"s1", "w", LogType.StartWork, some 1800000, "p1", none⟩,
       ⟨"c1", "w", LogType.CompleteWork, some 0, "p2", some "s1"⟩]
      [] [] "All" "All" none
    = [⟨"w", "Unknown",
        [⟨"s1", "w", "Unknown", some 1800000, some 1800000, "p1",
          some (some 0), some "p2", "-1h -30m", SessionStatus.Completed⟩]⟩]
    ∧ ¬ ((0 : Int) ≥ 1800000) := by
  constructor
  · decide
  · decide

/-- C1, amended: every Completed session emitted by the legacy chronological
    pass over events with parseable timestamps has both a start and an end
    timestamp, with the end not before the start; the explicit-link pass does
    not guarantee this order. -/
theorem c1_legacy_completed_end_not_before_start (wn stage : String)
    (l : List DailyLog) (hall : ∀ x ∈ l, ∃ t, x.timestamp = some t) :
    ∀ s ∈ legacySessions wn stage [] l,
      s.status = SessionStatus.Completed →
      ∃ ts te, s.startTime = some ts ∧ s.endTime = some (some te) ∧ ts ≤ te :=
  fun s hs => legacySessions_ordered wn stage l hall s hs

/-- C1, witness: the amended theorem applied to one concrete legacy pair. -/
theorem c1_witness :
    ∃ ts te,
      (⟨"s1", "w", "Unknown", some 0, some 0, "p1", some (some 1800000),
        some "p2", "0h 30m", SessionStatus.Completed⟩ : WorkSession).startTime
          = some ts
      ∧ (⟨"s1", "w", "Unknown", some 0, some 0, "p1", some (some 1800000),
          some "p2", "0h 30m", SessionStatus.Completed⟩ : WorkSession).endTime
          = some (some te)
      ∧ ts ≤ te :=
  c1_legacy_completed_end_not_before_start "w" "Unknown"
    [⟨"s1", "w", LogType.StartWork, some 0, "p1", none⟩,
     ⟨"c1", "w", LogType.CompleteWork, some 1800000, "p2", none⟩]
    (by intro x hx; fin_cases hx <;> exact ⟨_, rfl⟩)
    ⟨"s1", "w", "Unknown", some 0, some 0, "p1", some (some 1800000),
      some "p2", "0h 30m", SessionStatus.Completed⟩
    (by decide) (by decide)

/-- C2, counterexample: for a linked complete 30 seconds before its start the
    emitted duration is 0h 0m, the truncation toward zero of minus half a
    minute, while the claimed floor of the difference is minus one minute,
    which the duration template would render as -1h -1m. -/
theorem c2_counterexample :
    groupedSessions 0
      [⟨"s1", "w", LogType.StartWork, some 30000, "p1", none⟩,
       ⟨"c1", "w", LogType.CompleteWork, some 0, "p2", some "s1"⟩]
      [] [] "All" "All" none
    = [⟨"w", "Unknown",
        [⟨"s1", "w", "Unknown", some 30000, some 30000, "p1",
          some (some 0), some "p2", "0h 0m", SessionStatus.Completed⟩]⟩]
    ∧ Int.fdiv ((0 : Int) - 30000) 60000 = -1
    ∧ formatHM (some (-1)) = "-1h -1m"
    ∧ ("0h 0m" : String) ≠ "-1h -1m" := by
  refine ⟨?_, ?_, ?_, ?_⟩ <;> decide

/-- C2, amended: every complete carrying a truthy (non-empty) relatedLogId
    that resolves to a start emits the Completed session pairing exactly
    those two events, with duration equal to the millisecond difference
    divided by 60000 truncated toward zero (the floor whenever the complete
    is not earlier), rendered as hours plus minutes, and both events are
    consumed, so neither survives into the remaining lists the legacy pass
    walks. -/
theorem c2_explicit_link_pairs (wn stage : String)
    (starts completes : List DailyLog) (comp startLog : DailyLog)
    (rid : String) (hmem : comp ∈ completes)
    (hrel : comp.relatedLogId = some rid) (hne : rid ≠ "")
    (hfind : starts.find? (fun s => decide (s.id = rid)) = some startLog) :
    mkLinked wn stage startLog comp ∈ (pass1 wn stage starts completes).sessions
    ∧ (mkLinked wn stage startLog comp).status = SessionStatus.Completed
    ∧ (mkLinked wn stage startLog comp).startTime = startLog.timestamp
    ∧ (mkLinked wn stage startLog comp).endTime = some comp.timestamp
    ∧ (mkLinked wn stage startLog comp).duration
        = formatHM (diffMinutes comp.timestamp startLog.timestamp)
    ∧ (∀ ts te, startLog.timestamp = some ts → comp.timestamp = some te →
        diffMinutes comp.timestamp startLog.timestamp
          = some (Int.tdiv (te - ts) 60000))
    ∧ startLog ∉ starts.filter (fun s => ! decide
        (s.id ∈ (pass1 wn stage starts completes).consumedS))
    ∧ comp ∉ completes.filter (fun c => ! decide
        (c.id ∈ (pass1 wn stage starts completes).consumedC)) := by
  have he := pass1_foldl_emits starts wn stage completes ⟨[], [], []⟩
    comp startLog rid hmem hrel hne hfind
  refine ⟨he.2.2, rfl, rfl, rfl, rfl, ?_, ?_, ?_⟩
  · intro ts te hts hte
    simp [diffMinutes, hts, hte]
  · intro habs
    have hp := (List.mem_filter.1 habs).2
    simp only [Bool.not_eq_eq_eq_not, Bool.not_true, decide_eq_false_iff_not] at hp
    exact hp he.1
  · intro habs
    have hp := (List.mem_filter.1 habs).2
    simp only [Bool.not_eq_eq_eq_not, Bool.not_true, decide_eq_false_iff_not] at hp
    exact hp he.2.1

/-- C2, witness: the amended theorem applied to one concrete linked pair. -/
theorem c2_witness :
    mkLinked "w" "Unknown"
      ⟨"s1", "w", LogType.StartWork, some 0, "p1", none⟩
      ⟨"c1", "w", LogType.CompleteWork, some 1800000, "p2", some "s1"⟩
    ∈ (pass1 "w" "Unknown"
        [⟨"s1", "w", LogType.StartWork, some 0, "p1", none⟩]
        [⟨"c1", "w", LogType.CompleteWork, some 1800000, "p2",
          some "s1"⟩]).sessions :=
  (c2_explicit_link_pairs "w" "Unknown"
    [⟨"s1", "w", LogType.StartWork, some 0, "p1", none⟩]
    [⟨"c1", "w", LogType.CompleteWork, some 1800000, "p2", some "s1"⟩]
    ⟨"c1", "w", LogType.CompleteWork, some 1800000, "p2", some "s1"⟩
    ⟨"s1", "w", LogType.StartWork, some 0, "p1", none⟩
    "s1" (by decide) (by decide) (by decide) (by decide)).1

/-- C3: with a date filter active every emitted session lies on the requested
    local calendar day of its start event, for every input order; sessions of
    each worker group are pairwise sorted newest first by start time, and the
    worker groups are pairwise sorted ascending by worker name. -/
theorem c3_date_filter_and_sorting (tz : Int) (logs : List DailyLog)
    (users : List User) (departments : List Department) (ss sw : String)
    (fd : Option Int) :
    (∀ g ∈ groupedSessions tz logs users departments ss sw (some fd),
      (∀ s ∈ g.sessions, sameDayB tz s.startTime fd = true)
      ∧ g.sessions.Pairwise (fun a b => startKey b ≤ startKey a))
    ∧ (groupedSessions tz logs users departments ss sw (some fd)).Pairwise
        (fun a b => localeCmp a.workerName b.workerName ≤ 0) := by
  constructor
  · intro g hg
    rcases mem_groupedSessions tz logs users departments ss sw (some fd) g hg
      with ⟨wn, bucket, _, hbg⟩
    have hsess := buildGroup_sessions tz users departments ss sw (some fd)
      wn bucket g hbg
    constructor
    · intro s hs
      rw [hsess] at hs
      exact mem_dateFilter_same_day tz fd _ s ((sortJS_mem sessCmp _ s).1 hs)
    · rw [hsess]
      apply sortJS_sessCmp_sorted
      intro s hs
      exact sameDayB_isSome tz s.startTime fd
        (mem_dateFilter_same_day tz fd _ s hs)
  · simp only [groupedSessions]
    exact sortJS_groupCmp_sorted _

/-- C3, witness: the theorem applied to one concrete filtered run. -/
theorem c3_witness :
    sameDayB 0
      ((⟨"s1", "w", "Unknown", some 0, some 0, "p1", none, none,
        "In Progress", SessionStatus.InProgress⟩ : WorkSession).startTime)
      (some 0) = true :=
  (((c3_date_filter_and_sorting 0
      [⟨"s1", "w", LogType.StartWork, some 0, "p1", none⟩] [] []
      "All" "All" (some 0)).1
    ⟨"w", "Unknown",
      [⟨"s1", "w", "Unknown", some 0, some 0, "p1", none, none,
        "In Progress", SessionStatus.InProgress⟩]⟩ (by decide)).1
    ⟨"s1", "w", "Unknown", some 0, some 0, "p1", none, none,
      "In Progress", SessionStatus.InProgress⟩ (by decide))

/-- C4: in the legacy pass a CompleteWork event arriving while a start is
    open closes it as a Completed session pairing the two and clears the open
    start; the worker whose unlinked events are a start and a complete thirty
    minutes later yields exactly one Completed session of duration 0h 30m. -/
theorem c4_legacy_complete_closes (wn stage : String) (st : P2State)
    (cs log : DailyLog) (htype : log.type = LogType.CompleteWork)
    (hopen : st.currentStart = some cs) :
    pass2Step wn stage st log
      = ⟨st.sessions ++ [mkPair wn stage cs log], none⟩
    ∧ (mkPair wn stage cs log).status = SessionStatus.Completed
    ∧ (mkPair wn stage cs log).startTime = cs.timestamp
    ∧ (mkPair wn stage cs log).endTime = some log.timestamp
    ∧ groupedSessions 0
        [⟨"s1", "w", LogType.StartWork, some 0, "p1", none⟩,
         ⟨"c1", "w", LogType.CompleteWork, some 1800000, "p2", none⟩]
        [] [] "All" "All" none
      = [⟨"w", "Unknown",
          [⟨"s1", "w", "Unknown", some 0, some 0, "p1", some (some 1800000),
            some "p2", "0h 30m", SessionStatus.Completed⟩]⟩] :=
  ⟨pass2Step_complete_open wn stage st log cs htype hopen, rfl, rfl, rfl,
    by decide⟩

/-- C4, witness: the theorem applied to one concrete open-start state. -/
theorem c4_witness :
    pass2Step "w" "Unknown"
      ⟨[], some ⟨"s1", "w", LogType.StartWork, some 0, "p1", none⟩⟩
      ⟨"c1", "w", LogType.CompleteWork, some 1800000, "p2", none⟩
    = ⟨[mkPair "w" "Unknown"
          ⟨"s1", "w", LogType.StartWork, some 0, "p1", none⟩
          ⟨"c1", "w", LogType.CompleteWork, some 1800000, "p2", none⟩],
        none⟩ := by
  have h := (c4_legacy_complete_closes "w" "Unknown"
    ⟨[], some ⟨"s1", "w", LogType.StartWork, some 0, "p1", none⟩⟩
    ⟨"s1", "w", LogType.StartWork, some 0, "p1", none⟩
    ⟨"c1", "w", LogType.CompleteWork, some 1800000, "p2", none⟩
    rfl rfl).1
  simpa using h

/-- C5: a start still open once the whole timeline has been walked is emitted
    as the final In Progress session, and the worker with two unlinked starts
    and no completes yields exactly the Abandoned first start and the
    In Progress second start, listed newest first. -/
theorem c5_two_starts_abandoned_then_inprogress (wn stage : String)
    (init : List WorkSession) (l : List DailyLog) (cs : DailyLog)
    (hopen : ((sortJS logCmp l).foldl (pass2Step wn stage)
        ⟨init, none⟩).currentStart = some cs) :
    legacySessions wn stage init l
      = ((sortJS logCmp l).foldl (pass2Step wn stage) ⟨init, none⟩).sessions
        ++ [mkInProgress wn stage cs]
    ∧ (mkInProgress wn stage cs).status = SessionStatus.InProgress
    ∧ (mkInProgress wn stage cs).endTime = none
    ∧ groupedSessions 0
        [⟨"s1", "w", LogType.StartWork, some 0, "p1", none⟩,
         ⟨"s2", "w", LogType.StartWork, some 600000, "p2", none⟩]
        [] [] "All" "All" none
      = [⟨"w", "Unknown",
          [⟨"s2", "w", "Unknown", some 600000, some 600000, "p2", none, none,
            "In Progress", SessionStatus.InProgress⟩,
           ⟨"s1", "w", "Unknown", some 0, some 0, "p1", none, none,
            "Abandoned", SessionStatus.Abandoned⟩]⟩] :=
  ⟨legacySessions_open wn stage init l cs hopen, rfl, rfl, by decide⟩

/-- C5, witness: the theorem applied to the two-start worker. -/
theorem c5_witness :
    groupedSessions 0
      [⟨"s1", "w", LogType.StartWork, some 0, "p1", none⟩,
       ⟨"s2", "w", LogType.StartWork, some 600000, "p2", none⟩]
      [] [] "All" "All" none
    = [⟨"w", "Unknown",
        [⟨"s2", "w", "Unknown", some 600000, some 600000, "p2", none, none,
          "In Progress", SessionStatus.InProgress⟩,
         ⟨"s1", "w", "Unknown", some 0, some 0, "p1", none, none,
          "Abandoned", SessionStatus.Abandoned⟩]⟩] :=
  (c5_two_starts_abandoned_then_inprogress "w" "Unknown" []
    [⟨"s1", "w", LogType.StartWork, some 0, "p1", none⟩,
     ⟨"s2", "w", LogType.StartWork, some 600000, "p2", none⟩]
    ⟨"s2", "w", LogType.StartWork, some 600000, "p2", none⟩
    (by decide)).2.2.2

/-- C6: a CompleteWork event processed by the legacy pass while no start is
    open is not dropped: it pushes an orphan Completed session with empty
    start photo, duration --, and the complete timestamp as both ends. -/
theorem c6_orphan_complete (wn stage : String) (st : P2State)
    (log : DailyLog) (htype : log.type = LogType.CompleteWork)
    (hopen : st.currentStart = none) :
    pass2Step wn stage st log
      = ⟨st.sessions ++ [mkOrphan wn stage log], none⟩
    ∧ (mkOrphan wn stage log).status = SessionStatus.Completed
    ∧ (mkOrphan wn stage log).startPhoto = ""
    ∧ (mkOrphan wn stage log).duration = "--"
    ∧ (mkOrphan wn stage log).startTime = log.timestamp
    ∧ (mkOrphan wn stage log).endTime = some log.timestamp :=
  ⟨pass2Step_complete_orphan wn stage st log htype hopen,
    rfl, rfl, rfl, rfl, rfl⟩

/-- C6, witness: the theorem applied to one concrete orphan complete. -/
theorem c6_witness :
    pass2Step "w" "Unknown" ⟨[], none⟩
      ⟨"c1", "w", LogType.CompleteWork, some 0, "p2", none⟩
    = ⟨[mkOrphan "w" "Unknown"
          ⟨"c1", "w", LogType.CompleteWork, some 0, "p2", none⟩], none⟩ := by
  have h := (c6_orphan_complete "w" "Unknown" ⟨[], none⟩
    ⟨"c1", "w", LogType.CompleteWork, some 0, "p2", none⟩ rfl rfl).1
  simpa using h

/-- C7, counterexample: a CompleteWork event with an unparseable timestamp is
    not skipped; with the date filter cleared, its orphan session appears in
    the output, refuting that the affected event's session is excluded. -/
theorem c7_counterexample :
    groupedSessions 0
      [⟨"c1", "w", LogType.CompleteWork, none, "p2", none⟩]
      [] [] "All" "All" none
    = [⟨"w", "Unknown",
        [⟨"c1", "w", "Unknown", none, none, "", some none, some "p2", "--",
          SessionStatus.Completed⟩]⟩] := by decide

/-- C7, amended: the reconstruction is total and never aborts on malformed
    timestamps, but the affected event is processed, not skipped; only while
    a date filter is active is every emitted session guaranteed a parseable
    start time (an invalid start lies on no requested day), and a worker
    whose only event has an unparseable timestamp produces no group then. -/
theorem c7_malformed_start_excluded_only_by_date_filter (tz : Int)
    (logs : List DailyLog) (users : List User)
    (departments : List Department) (ss sw : String) (fd : Option Int) :
    (∀ g ∈ groupedSessions tz logs users departments ss sw (some fd),
      ∀ s ∈ g.sessions, ∃ t, s.startTime = some t)
    ∧ groupedSessions 0
        [⟨"c1", "w", LogType.CompleteWork, none, "p2", none⟩]
        [] [] "All" "All" (some (some 0))
      = [] := by
  constructor
  · intro g hg s hs
    rcases mem_groupedSessions tz logs users departments ss sw (some fd) g hg
      with ⟨wn, bucket, _, hbg⟩
    rw [buildGroup_sessions tz users departments ss sw (some fd) wn bucket g hbg]
      at hs
    exact sameDayB_isSome tz s.startTime fd
      (mem_dateFilter_same_day tz fd _ s ((sortJS_mem sessCmp _ s).1 hs))
  · decide

/-- C7, witness: the amended theorem applied to one concrete filtered run. -/
theorem c7_witness :
    ∃ t,
      (⟨"s1", "w", "Unknown", some 0, some 0, "p1", none, none,
        "In Progress", SessionStatus.InProgress⟩ : WorkSession).startTime
        = some t :=
  ((c7_malformed_start_excluded_only_by_date_filter 0
      [⟨"s1", "w", LogType.StartWork, some 0, "p1", none⟩] [] []
      "All" "All" (some 0)).1
    ⟨"w", "Unknown",
      [⟨"s1", "w", "Unknown", some 0, some 0, "p1", none, none,
        "In Progress", SessionStatus.InProgress⟩]⟩ (by decide)
    ⟨"s1", "w", "Unknown", some 0, some 0, "p1", none, none,
      "In Progress", SessionStatus.InProgress⟩ (by decide))

/-- C8: the reconstruction is a pure function of the event list, the user and
    department lists, the filter settings and the timezone; running it twice
    on the same inputs yields identical grouped output. -/
theorem c8_reconstruction_deterministic (tz : Int) (dailyLogs : List DailyLog)
    (users : List User) (departments : List Department) (ss sw : String)
    (fd : Option (Option Int)) :
    groupedSessions tz dailyLogs users departments ss sw fd
      = groupedSessions tz dailyLogs users departments ss sw fd := rfl

/-- C9: events of shift type Start or End never influence the output: any two
    event lists agreeing on their StartWork and CompleteWork events produce
    identical grouped sessions. -/
theorem c9_shift_events_no_influence (tz : Int)
    (logs1 logs2 : List DailyLog) (users : List User)
    (departments : List Department) (ss sw : String)
    (fd : Option (Option Int))
    (h : logs1.filter isWorkLog = logs2.filter isWorkLog) :
    groupedSessions tz logs1 users departments ss sw fd
      = groupedSessions tz logs2 users departments ss sw fd := by
  simp only [groupedSessions, h]

/-- C9, witness: the theorem applied to two concrete lists differing only in
    shift events. -/
theorem c9_witness :
    groupedSessions 0
      [⟨"e1", "w", LogType.Start, some 5, "p", none⟩,
       ⟨"s1", "w", LogType.StartWork, some 0, "p1", none⟩]
      [] [] "All" "All" none
    = groupedSessions 0
      [⟨"s1", "w", LogType.StartWork, some 0, "p1", none⟩,
       ⟨"e2", "w", LogType.End, some 999, "q", none⟩]
      [] [] "All" "All" none :=
  c9_shift_events_no_influence 0
    [⟨"e1", "w", LogType.Start, some 5, "p", none⟩,
     ⟨"s1", "w", LogType.StartWork, some 0, "p1", none⟩]
    [⟨"s1", "w", LogType.StartWork, some 0, "p1", none⟩,
     ⟨"e2", "w", LogType.End, some 999, "q", none⟩]
    [] [] "All" "All" none (by decide)

/-- C10: every emitted worker group holds at most one In Progress session:
    the explicit-link pass emits only Completed sessions and the legacy pass
    emits In Progress only for the one start still open at the end. -/
theorem c10_at_most_one_inprogress (tz : Int) (logs : List DailyLog)
    (users : List User) (departments : List Department) (ss sw : String)
    (fd : Option (Option Int)) :
    ∀ g ∈ groupedSessions tz logs users departments ss sw fd,
      g.sessions.countP
        (fun s => decide (s.status = SessionStatus.InProgress)) ≤ 1 := by
  intro g hg
  rcases mem_groupedSessions tz logs users departments ss sw fd g hg
    with ⟨wn, bucket, _, hbg⟩
  rw [buildGroup_sessions tz users departments ss sw fd wn bucket g hbg]
  rw [List.Perm.countP_eq _ (sortJS_perm sessCmp _)]
  refine le_trans ((dateFilter_sublist tz fd _).countP_le _) ?_
  exact workerSessions_countP wn (stageOf users departments wn)
    (sortJS logCmp bucket)

/-- C10, witness: the theorem applied to one concrete group holding an
    In Progress session. -/
theorem c10_witness :
    ([⟨"s1", "w", "Unknown", some 0, some 0, "p1", none, none,
        "In Progress", SessionStatus.InProgress⟩] : List WorkSession).countP
      (fun s => decide (s.status = SessionStatus.InProgress)) ≤ 1 :=
  c10_at_most_one_inprogress 0
    [⟨"s1", "w", LogType.StartWork, some 0, "p1", none⟩] [] []
    "All" "All" none
    ⟨"w", "Unknown",
      [⟨"s1", "w", "Unknown", some 0, some 0, "p1", none, none,
        "In Progress", SessionStatus.InProgress⟩]⟩ (by decide)

end JewelleryFlow
